import Mathlib

/-!
Verification of the android/pkg package registry (android_pkgs.go and the
platform getself hooks) against its design description.

The Go source is shallowly embedded below.  Machine integers (uint32) are
modelled as Nat with explicit bounds or reductions where overflow matters;
Go maps are modelled as association lists whose insert replaces in place;
the randomized iteration order of a Go map is modelled by an explicit
iteration function passed to refresh; fallible code returns Except or a
dedicated result inductive; an index access that Go would abort on is a
dedicated panic constructor.  External standard-library routines used by
the source (strconv.ParseUint with base 0, hex.DecodeString, sha1.Sum,
bytes.Fields, bytes.Split, bufio line splitting) are modelled faithfully
from their documented behaviour; x509.ParseCertificate is kept abstract as
a function parameter since no claim depends on DER internals.
-/

/-! ## Byte and character utilities (models of Go stdlib helpers) -/

/-- Model of the Go strconv helper lower, which is byte-or 0x20. -/
def lowerN (n : Nat) : Nat := n ||| 32

/-- Character class used by bytes.Fields: unicode.IsSpace on the
Latin-1 range, which is what the manifest bytes contain. -/
def goIsSpace (c : Char) : Bool :=
  c.toNat == 32 || c.toNat == 9 || c.toNat == 10 || c.toNat == 11 ||
  c.toNat == 12 || c.toNat == 13 || c.toNat == 133 || c.toNat == 160

/-- Splitter behind bytes.Fields: groups of non-space characters. -/
def fieldsAux : List Char → List Char → List (List Char)
  | acc, [] => if acc = [] then [] else [acc.reverse]
  | acc, c :: cs =>
    if goIsSpace c then
      if acc = [] then fieldsAux [] cs else acc.reverse :: fieldsAux [] cs
    else fieldsAux (c :: acc) cs

/-- Model of bytes.Fields on a single manifest line. -/
def goFields (cs : List Char) : List (List Char) := fieldsAux [] cs

/-- Splitter behind bytes.Split with a one-character separator. -/
def splitAux (sep : Char) : List Char → List Char → List (List Char)
  | acc, [] => [acc.reverse]
  | acc, c :: cs =>
    if c = sep then acc.reverse :: splitAux sep [] cs
    else splitAux sep (c :: acc) cs

/-- Model of bytes.Split(s, sep) for a one-character separator. -/
def goSplit (sep : Char) (cs : List Char) : List (List Char) := splitAux sep [] cs

/-- Drop one trailing carriage return, as genlines does after dropping
the newline. -/
def stripCR (l : List Char) : List Char :=
  if l.getLast? = some (Char.ofNat 13) then l.dropLast else l

/-- Model of genlines: bufio.ReadBytes reassembles full lines no matter
how the stream is chunked, so the observable behaviour is a split on
newline, a strip of one trailing carriage return, and a skip of lines
that become empty. -/
def goLines (cs : List Char) : List (List Char) :=
  ((goSplit (Char.ofNat 10) cs).map stripCR).filter (fun l => l ≠ [])

/-! ## Model of strconv.ParseUint(s, 0, 32) -/

/-- Largest uint32 value. -/
def maxU32 : Nat := 4294967295

/-- Digit value of a character as in the strconv conversion loop:
decimal digits, then letters a to z case-insensitively. -/
def digitVal (c : Char) : Option Nat :=
  let n := c.toNat
  if 48 ≤ n ∧ n ≤ 57 then some (n - 48)
  else if 97 ≤ lowerN n ∧ lowerN n ≤ 122 then some (lowerN n - 97 + 10)
  else none

/-- Conversion loop of strconv.ParseUint with the base-0 underscore skip;
errors (bad digit, digit not below base, value above the 32-bit cutoff)
all collapse to none since the caller only tests err. -/
def puCore (base : Nat) : Nat → List Char → Option Nat
  | n, [] => some n
  | n, c :: cs =>
    if c = '_' then puCore base n cs
    else
      match digitVal c with
      | none => none
      | some d =>
        if base ≤ d then none
        else if maxU32 < n * base + d then none
        else puCore base (n * base + d) cs

/-- State loop of the strconv underscoreOK check; saw is one of the
marker characters used by the original. -/
def uokLoop (hex : Bool) : Char → List Char → Bool
  | saw, [] => saw ≠ '_'
  | saw, c :: cs =>
    if (48 ≤ c.toNat ∧ c.toNat ≤ 57) ∨
       (hex ∧ 97 ≤ lowerN c.toNat ∧ lowerN c.toNat ≤ 102) then
      uokLoop hex '0' cs
    else if c = '_' then
      if saw ≠ '0' then false else uokLoop hex '_' cs
    else if saw = '_' then false
    else uokLoop hex '!' cs

/-- Model of strconv.underscoreOK: underscores may only sit between
digits or between a base prefix and the first digit. -/
def underscoreOK (s : List Char) : Bool :=
  let s1 := match s with
    | c :: t => if c = '-' ∨ c = '+' then t else s
    | [] => s
  match s1 with
  | '0' :: c :: t =>
    if lowerN c.toNat = 98 ∨ lowerN c.toNat = 111 ∨ lowerN c.toNat = 120 then
      uokLoop (lowerN c.toNat = 120) '0' t
    else uokLoop false '^' s1
  | _ => uokLoop false '^' s1

/-- Model of strconv.ParseUint(s, 0, 32): base detection from the prefix
(0b, 0o, 0x, leading-zero octal, else decimal), no sign, 32-bit range
check, underscore separators validated against the original string. -/
def parseUint0_32 (s : List Char) : Option Nat :=
  let r := match s with
    | [] => none
    | ['0'] => some 0
    | '0' :: c :: rest =>
      if rest ≠ [] ∧ lowerN c.toNat = 98 then puCore 2 0 rest
      else if rest ≠ [] ∧ lowerN c.toNat = 111 then puCore 8 0 rest
      else if rest ≠ [] ∧ lowerN c.toNat = 120 then puCore 16 0 rest
      else puCore 8 0 (c :: rest)
    | _ => puCore 10 0 s
  match r with
  | none => none
  | some n => if s.contains '_' ∧ ¬ underscoreOK s then none else some n

/-! ## Model of encoding/hex.DecodeString -/

/-- Value of one hex character as in hex fromHexChar: digits, lower and
upper case letters a to f. -/
def hexVal (c : Char) : Option Nat :=
  let n := c.toNat
  if 48 ≤ n ∧ n ≤ 57 then some (n - 48)
  else if 97 ≤ n ∧ n ≤ 102 then some (n - 97 + 10)
  else if 65 ≤ n ∧ n ≤ 70 then some (n - 65 + 10)
  else none

/-- Model of hex.DecodeString: bytes from pairs of hex characters; an odd
length or an invalid character is an error, collapsed to none since the
caller only tests err. -/
def hexDecode : List Char → Option (List Nat)
  | [] => some []
  | [_] => none
  | c1 :: c2 :: rest =>
    match hexVal c1, hexVal c2 with
    | some hi, some lo =>
      match hexDecode rest with
      | some bs => some ((hi * 16 + lo) :: bs)
      | none => none
    | _, _ => none

/-! ## Model of crypto/sha1.Sum -/

/-- Modulus for 32-bit words. -/
def w32 : Nat := 4294967296

/-- Left rotation of a 32-bit word. -/
def rotl (k n : Nat) : Nat := ((n <<< k) ||| (n >>> (32 - k))) % w32

/-- Big-endian byte rendering of a value, k bytes. -/
def beBytes : Nat → Nat → List Nat
  | 0, _ => []
  | k + 1, n => beBytes k (n >>> 8) ++ [n % 256]

/-- Big-endian 32-bit word from four bytes. -/
def beWord : List Nat → Nat
  | [] => 0
  | b :: bs => b <<< (8 * bs.length) + beWord bs

/-- SHA-1 padding: a 0x80 byte, zeros to 56 mod 64, then the bit length
as eight big-endian bytes. -/
def sha1pad (msg : List Nat) : List Nat :=
  msg ++ 128 :: List.replicate ((119 - msg.length % 64) % 64) 0 ++
    beBytes 8 (8 * msg.length)

/-- Split a padded message into 64-byte blocks; fuel keeps the recursion
structural so concrete digests reduce in the kernel. -/
def toBlocks : Nat → List Nat → List (List Nat)
  | 0, _ => []
  | _ + 1, [] => []
  | fuel + 1, l => l.take 64 :: toBlocks fuel (l.drop 64)

/-- Extend the sixteen message words of a block to eighty; fuel counts
the remaining words to produce. -/
def sha1extend : Nat → List Nat → List Nat
  | 0, ws => ws
  | fuel + 1, ws =>
    let i := ws.length
    sha1extend fuel (ws ++ [rotl 1 (Nat.xor (Nat.xor (ws.getD (i - 3) 0) (ws.getD (i - 8) 0))
      (Nat.xor (ws.getD (i - 14) 0) (ws.getD (i - 16) 0)))])

/-- One SHA-1 round on the five-word state. -/
def sha1round (w i : Nat) : Nat × Nat × Nat × Nat × Nat → Nat × Nat × Nat × Nat × Nat
  | (a, b, c, d, e) =>
    let fk : Nat × Nat :=
      if i < 20 then (Nat.lor (Nat.land b c) (Nat.land (Nat.xor b maxU32) d), 1518500249)
      else if i < 40 then (Nat.xor (Nat.xor b c) d, 1859775393)
      else if i < 60 then (Nat.lor (Nat.lor (Nat.land b c) (Nat.land b d)) (Nat.land c d), 2400959708)
      else (Nat.xor (Nat.xor b c) d, 3395469782)
    ((rotl 5 a + fk.1 + e + fk.2 + w) % w32, a, rotl 30 b, c, d)

/-- Compress one 64-byte block into the running hash state. -/
def sha1block (h : Nat × Nat × Nat × Nat × Nat) (block : List Nat) : Nat × Nat × Nat × Nat × Nat :=
  let w16 := (List.range 16).map (fun i => beWord ((block.drop (4 * i)).take 4))
  let ws := sha1extend 64 w16
  let st := (List.range 80).foldl (fun s i => sha1round (ws.getD i 0) i s) h
  ((h.1 + st.1) % w32, (h.2.1 + st.2.1) % w32, (h.2.2.1 + st.2.2.1) % w32,
   (h.2.2.2.1 + st.2.2.2.1) % w32, (h.2.2.2.2 + st.2.2.2.2) % w32)

/-- Model of sha1.Sum: the twenty-byte SHA-1 digest of a byte sequence. -/
def sha1 (msg : List Nat) : List Nat :=
  let padded := sha1pad msg
  let hs := (toBlocks (padded.length + 1) padded).foldl sha1block
    (1732584193, 4023233417, 2562383102, 271733878, 3285377520)
  beBytes 4 hs.1 ++ beBytes 4 hs.2.1 ++ beBytes 4 hs.2.2.1 ++
    beBytes 4 hs.2.2.2.1 ++ beBytes 4 hs.2.2.2.2

/-! ## Data model -/

/-- Abstract decoded certificate; x509.ParseCertificate is external, so
only the identity of the decoded value matters here. -/
structure Certificate where
  der : List Nat
deriving DecidableEq, Repr

/-- Parse errors produced by the two manifest readers; each fmt.Errorf
in the source carries the package name, modelled as a field here. -/
inductive PErr where
  | badUid (raw : String) (pkgName : String)
  | badGid (raw : String) (pkgName : String)
  | noUid (pkgName : String)
  | badHex (pkgName : String)
  | badCert (pkgName : String)
deriving DecidableEq, Repr

/-- The Pkg record of the source: common fields of packages.xml and
packages.list.  Nil pointer and nil slice become none. -/
structure Pkg where
  name : String
  dataPath : String
  path : String
  uid : Nat
  seInfo : String
  gid : List Nat
  cert : Option Certificate
  certhash : Option (List Nat)
deriving DecidableEq, Repr

/-- The per-package element of packages.xml after xml.Unmarshal:
attributes of the package element plus the nested hex certificate
string.  Ignored attributes are kept for completeness. -/
structure xpkg where
  name : String
  path : String
  nativePath : String
  pubFlags : Nat
  uid : Nat
  sharedUid : Nat
  inst : String
  version : String
  certstr : String
deriving DecidableEq, Repr

/-! ## Association-list model of Go maps -/

/-- Lookup in a Go map modelled as an association list. -/
def mapLookup {κ α : Type} [DecidableEq κ] (k : κ) : List (κ × α) → Option α
  | [] => none
  | (k0, v0) :: rest => if k0 = k then some v0 else mapLookup k rest

/-- Map write m[k] = v: replace in place or append a new entry. -/
def mapInsert {κ α : Type} [DecidableEq κ] (k : κ) (v : α) : List (κ × α) → List (κ × α)
  | [] => [(k, v)]
  | (k0, v0) :: rest =>
    if k0 = k then (k, v) :: rest else (k0, v0) :: mapInsert k v rest

/-- Map write m[u] = append(m[u], p), as the byUid index is built. -/
def bucketAppend (u : Nat) (p : Pkg) (m : List (Nat × List Pkg)) : List (Nat × List Pkg) :=
  match mapLookup u m with
  | some l => mapInsert u (l ++ [p]) m
  | none => mapInsert u [p] m

/-! ## parseList: the line-manifest reader -/

/-- Outcome of the loop body of parseList on one generated line: a blank
line is skipped, a bad number is an error, and a field access beyond the
end of the fields slice is the panic the unguarded source would hit. -/
inductive LineOut where
  | skip : LineOut
  | ok : Pkg → LineOut
  | err : PErr → LineOut
  | panic : LineOut
deriving DecidableEq, Repr

/-- Result of parseList as a whole. -/
inductive LRes where
  | ok : List Pkg → LRes
  | err : PErr → LRes
  | panic : LRes
deriving DecidableEq, Repr

/-- The gid loop of parseList: each comma-separated piece through
ParseUint, first failure aborts with the error naming the package. -/
def parseGids (pkgName : String) : List (List Char) → Except PErr (List Nat)
  | [] => .ok []
  | g :: rest =>
    match parseUint0_32 g with
    | none => .error (.badGid (String.mk g) pkgName)
    | some n =>
      match parseGids pkgName rest with
      | .ok l => .ok (n :: l)
      | .error e => .error e

/-- Loop body of parseList on one line, with the field accesses of the
source (v at 1, then 5, then 3 and 4) guarded: a missing index is the
out-of-range panic of the original. -/
def parseLine (l : List Char) : LineOut :=
  let v := goFields l
  match v with
  | [] => .skip
  | v0 :: _ =>
    match v.get? 1 with
    | none => .panic
    | some u1 =>
      match parseUint0_32 u1 with
      | none => .err (.badUid (String.mk u1) (String.mk v0))
      | some u =>
        match v.get? 5 with
        | none => .panic
        | some gs =>
          match (if gs = "none".data then Except.ok [] else parseGids (String.mk v0) (goSplit ',' gs)) with
          | .error e => .err e
          | .ok gid =>
            match v.get? 3, v.get? 4 with
            | some dp, some se =>
              .ok { name := String.mk v0, uid := u, dataPath := String.mk dp,
                    path := "", seInfo := String.mk se, gid := gid,
                    cert := none, certhash := none }
            | _, _ => .panic


/-- Loop of parseList over the generated lines: records accumulate in
line order; the first error or panic aborts the whole parse. -/
def parseListGo : List (List Char) → LRes
  | [] => .ok []
  | l :: rest =>
    match parseLine l with
    | .skip => parseListGo rest
    | .err e => .err e
    | .panic => .panic
    | .ok p =>
      match parseListGo rest with
      | .ok ps => .ok (p :: ps)
      | r => r

/-- Model of parseList on the byte content of packages.list; the file
open step is the callers concern (an unreadable file is an IOError
surfaced before any parsing). -/
def parseList (content : String) : LRes := parseListGo (goLines content.data)

/-! ## parseXML: the markup-manifest reader -/

/-- Owner-id resolution of parseXML: Uid when positive, else SharedUid
when positive, else the error naming the package. -/
def resolveUid (x : xpkg) : Except PErr Nat :=
  if 0 < x.uid then .ok x.uid
  else if 0 < x.sharedUid then .ok x.sharedUid
  else .error (.noUid x.name)

/-- Loop body of parseXML on one package element.  The parameter f is
x509.ParseCertificate, kept abstract: none is a certificate-structure
error.  The fingerprint is the SHA-1 digest of the raw decoded bytes. -/
def parseXMLone (f : List Nat → Option Certificate) (x : xpkg) : Except PErr Pkg :=
  match resolveUid x with
  | .error e => .error e
  | .ok u =>
    let base : Pkg :=
      { name := x.name, path := x.path, uid := u, dataPath := "",
        seInfo := "", gid := [], cert := none, certhash := none }
    if x.certstr.data = [] then .ok base
    else
      match hexDecode x.certstr.data with
      | none => .error (.badHex x.name)
      | some b =>
        if b = [] then .ok base
        else
          match f b with
          | none => .error (.badCert x.name)
          | some crt => .ok { base with cert := some crt, certhash := some (sha1 b) }

/-- Model of parseXML after xml.Unmarshal has produced the package
elements: one Pkg per element in order, first error aborts. -/
def parseXML (f : List Nat → Option Certificate) : List xpkg → Except PErr (List Pkg)
  | [] => .ok []
  | x :: rest =>
    match parseXMLone f x with
    | .error e => .error e
    | .ok p =>
      match parseXML f rest with
      | .error e => .error e
      | .ok ps => .ok (p :: ps)

/-! ## The registry: PackageDB, refresh, lookups -/

/-- In-core state of PackageDB: the two indices and the last-update
time (modelled as a Nat timestamp).  The two file paths of the original
are carried by the surrounding calls as file contents. -/
structure PackageDB where
  lastUpd : Nat
  byName : List (String × Pkg)
  byUid : List (Nat × List Pkg)
deriving DecidableEq, Repr

/-- The zero PackageDB that OpenPackageDB starts from. -/
def emptyDB : PackageDB := { lastUpd := 0, byName := [], byUid := [] }

/-- Result of refresh: success with the new state, failure returning the
untouched old state together with the error, or a propagated panic. -/
inductive RRes where
  | ok : PackageDB → RRes
  | err : PackageDB → PErr → RRes
  | panic : RRes
deriving DecidableEq, Repr

/-- Result of an operation that cannot fail but may propagate a panic
from parseList. -/
inductive PanicOr (α : Type) where
  | ok : α → PanicOr α
  | panic : PanicOr α
deriving DecidableEq, Repr

/-- First stage of the rebuild: the canonical byName index seeded from
the packages.xml records, later entries of the same name replacing
earlier ones as in a Go map write. -/
def buildByNameXML (xx : List Pkg) : List (String × Pkg) :=
  xx.foldl (fun m p => mapInsert p.name p m) []

/-- Overlay of one packages.list record onto the matching canonical
record: the source copies only Gid and DataPath. -/
def overlay (a p : Pkg) : Pkg := { a with gid := p.gid, dataPath := p.dataPath }

/-- Merge step for one packages.list record: overlay onto an existing
record of the same name, or insert as a new entry. -/
def mergeLine (m : List (String × Pkg)) (p : Pkg) : List (String × Pkg) :=
  match mapLookup p.name m with
  | some a => mapInsert p.name (overlay a p) m
  | none => mapInsert p.name p m

/-- The merged byName index: all packages.xml records first, then every
packages.list record merged in. -/
def buildByName (xx ll : List Pkg) : List (String × Pkg) :=
  ll.foldl mergeLine (buildByNameXML xx)

/-- The reverse byUid index, built by walking the byName entries in the
order the Go map iteration happens to produce (the entries argument). -/
def buildByUid (entries : List (String × Pkg)) : List (Nat × List Pkg) :=
  entries.foldl (fun m kv => bucketAppend kv.2.uid kv.2 m) []

/-- Model of refresh.  f is x509.ParseCertificate; iter is the
unspecified Go map iteration order used to walk byName; self is what
getself returns this rebuild; now is the clock value used for lastUpd;
lc is the content of packages.list and xd the unmarshalled packages.xml
elements.  On any parse error the old state is returned untouched
together with the error, as the early returns of the source do. -/
def refresh (f : List Nat → Option Certificate)
    (iter : List (String × Pkg) → List (String × Pkg))
    (self : Option Pkg) (now : Nat)
    (lc : String) (xd : List xpkg) (db : PackageDB) : RRes :=
  match parseList lc with
  | .panic => .panic
  | .err e => .err db e
  | .ok ll =>
    match parseXML f xd with
    | .error e => .err db e
    | .ok xx =>
      let m := buildByName xx ll
      let u := buildByUid (iter m)
      match self with
      | some s => .ok { lastUpd := now, byName := mapInsert s.name s m,
                        byUid := bucketAppend s.uid s u }
      | none => .ok { lastUpd := now, byName := m, byUid := u }

/-- State left behind by a refresh result (a panic tears the process
down, so the old state is as good an answer as any there). -/
def afterRefresh (db : PackageDB) : RRes → PackageDB
  | .ok d => d
  | .err d _ => d
  | .panic => db

/-- Model of maybeRefresh: stat results for packages.list and
packages.xml are mt0 and mt1 (none when stat fails, in which case the
refresh is skipped); a stale snapshot triggers refresh, whose error is
discarded. -/
def maybeRefresh (f : List Nat → Option Certificate)
    (iter : List (String × Pkg) → List (String × Pkg))
    (self : Option Pkg) (now : Nat)
    (mt0 mt1 : Option Nat)
    (lc : String) (xd : List xpkg) (db : PackageDB) : PanicOr PackageDB :=
  match mt0 with
  | none => .ok db
  | some t0 =>
    match mt1 with
    | none => .ok db
    | some t1 =>
      if db.lastUpd < t0 ∨ db.lastUpd < t1 then
        match refresh f iter self now lc xd db with
        | .ok d => .ok d
        | .err d _ => .ok d
        | .panic => .panic
      else .ok db

/-- Model of OpenPackageDB: a fresh zero state refreshed once; the
refresh error, if any, is returned to the caller next to the handle. -/
def OpenPackageDB (f : List Nat → Option Certificate)
    (iter : List (String × Pkg) → List (String × Pkg))
    (self : Option Pkg) (now : Nat)
    (lc : String) (xd : List xpkg) : PanicOr (PackageDB × Option PErr) :=
  match refresh f iter self now lc xd emptyDB with
  | .ok d => .ok (d, none)
  | .err d e => .ok (d, some e)
  | .panic => .panic

/-- Pure lookup behind GetByName. -/
def getByNamePure (db : PackageDB) (nm : String) : Option Pkg :=
  mapLookup nm db.byName

/-- Pure lookup behind GetListByUid. -/
def getListByUidPure (db : PackageDB) (uid : Nat) : Option (List Pkg) :=
  mapLookup uid db.byUid

/-- Pure lookup behind GetByUid: the first record of the bucket; a
present bucket is never empty, so head? is the r[0] of the source. -/
def getByUidPure (db : PackageDB) (uid : Nat) : Option Pkg :=
  match mapLookup uid db.byUid with
  | some l => l.head?
  | none => none

/-- Model of GetByName: maybe refresh, then look up; the caller gets
the record (or nothing) and the possibly replaced state. -/
def GetByName (f : List Nat → Option Certificate)
    (iter : List (String × Pkg) → List (String × Pkg))
    (self : Option Pkg) (now : Nat) (mt0 mt1 : Option Nat)
    (lc : String) (xd : List xpkg) (db : PackageDB)
    (nm : String) : PanicOr (Option Pkg × PackageDB) :=
  match maybeRefresh f iter self now mt0 mt1 lc xd db with
  | .ok d => .ok (getByNamePure d nm, d)
  | .panic => .panic

/-- Model of GetListByUid: maybe refresh, then look up the bucket. -/
def GetListByUid (f : List Nat → Option Certificate)
    (iter : List (String × Pkg) → List (String × Pkg))
    (self : Option Pkg) (now : Nat) (mt0 mt1 : Option Nat)
    (lc : String) (xd : List xpkg) (db : PackageDB)
    (uid : Nat) : PanicOr (Option (List Pkg) × PackageDB) :=
  match maybeRefresh f iter self now mt0 mt1 lc xd db with
  | .ok d => .ok (getListByUidPure d uid, d)
  | .panic => .panic

/-- Model of GetByUid: maybe refresh, then the first bucket record. -/
def GetByUid (f : List Nat → Option Certificate)
    (iter : List (String × Pkg) → List (String × Pkg))
    (self : Option Pkg) (now : Nat) (mt0 mt1 : Option Nat)
    (lc : String) (xd : List xpkg) (db : PackageDB)
    (uid : Nat) : PanicOr (Option Pkg × PackageDB) :=
  match maybeRefresh f iter self now mt0 mt1 lc xd db with
  | .ok d => .ok (getByUidPure d uid, d)
  | .panic => .panic

/-- Model of LastUpdate, which reads the timestamp without refreshing. -/
def LastUpdate (db : PackageDB) : Nat := db.lastUpd

/-- Model of the getself debug hook of debug_linux.go and debug_posix.go
off the target device: a synthetic record carrying only the fixed-prefix
name and the calling owner id.  On the target device getself returns
none; refresh takes the outcome as its self argument. -/
def getselfModel (uid : Nat) : Pkg :=
  { name := "caller-uid-" ++ toString uid, uid := uid, dataPath := "",
    path := "", seInfo := "", gid := [], cert := none, certhash := none }

/-- The ways getself can answer, across both platform hooks. -/
def getselfRange (self : Option Pkg) : Prop :=
  self = none ∨ ∃ u, self = some (getselfModel u)

/-- A parse failure of either manifest, the shared hypothesis of the
fail-closed claims. -/
def parseFails (f : List Nat → Option Certificate) (lc : String) (xd : List xpkg) : Prop :=
  (∃ e, parseList lc = .err e) ∨
  ((∃ ll, parseList lc = .ok ll) ∧ ∃ e, parseXML f xd = .error e)

/-! ## Helper lemmas: association-list maps -/

theorem foldl_inv {α β : Type} (P : β → Prop) (step : β → α → β) :
    ∀ (xs : List α) (init : β), P init →
      (∀ b x, x ∈ xs → P b → P (step b x)) → P (xs.foldl step init)
  | [], _, h, _ => h
  | x :: xs, init, h, hstep =>
    foldl_inv P step xs (step init x) (hstep init x (by simp) h)
      (fun b y hy hb => hstep b y (by simp [hy]) hb)

theorem mapLookup_mem {κ α : Type} [DecidableEq κ] (k : κ) :
    ∀ (m : List (κ × α)) (v : α), mapLookup k m = some v → (k, v) ∈ m
  | [], v, h => by simp [mapLookup] at h
  | (k0, v0) :: rest, v, h => by
    by_cases hk : k0 = k
    · subst hk
      simp [mapLookup] at h
      simp [h]
    · simp [mapLookup, hk] at h
      exact List.mem_cons_of_mem _ (mapLookup_mem k rest v h)

theorem mem_mapInsert {κ α : Type} [DecidableEq κ] (k : κ) (v : α) :
    ∀ (m : List (κ × α)) (e : κ × α), e ∈ mapInsert k v m → e = (k, v) ∨ e ∈ m
  | [], e, h => by simpa [mapInsert] using h
  | (k0, v0) :: rest, e, h => by
    by_cases hk : k0 = k
    · subst hk
      simp [mapInsert] at h
      rcases h with h | h
      · exact Or.inl h
      · exact Or.inr (List.mem_cons_of_mem _ h)
    · simp [mapInsert, hk] at h
      rcases h with h | h
      · exact Or.inr (by simp [h])
      · rcases mem_mapInsert k v rest e h with h2 | h2
        · exact Or.inl h2
        · exact Or.inr (List.mem_cons_of_mem _ h2)

theorem mapLookup_mapInsert_self {κ α : Type} [DecidableEq κ] (k : κ) (v : α) :
    ∀ m : List (κ × α), mapLookup k (mapInsert k v m) = some v
  | [] => by simp [mapInsert, mapLookup]
  | (k0, v0) :: rest => by
    by_cases hk : k0 = k
    · subst hk
      simp [mapInsert, mapLookup]
    · simp [mapInsert, mapLookup, hk]
      exact mapLookup_mapInsert_self k v rest

theorem mapLookup_mapInsert_ne {κ α : Type} [DecidableEq κ] (k k2 : κ) (v : α)
    (hne : k2 ≠ k) :
    ∀ m : List (κ × α), mapLookup k2 (mapInsert k v m) = mapLookup k2 m
  | [] => by simp [mapInsert, mapLookup, Ne.symm hne]
  | (k0, v0) :: rest => by
    by_cases hk : k0 = k
    · subst hk
      simp [mapInsert, mapLookup, hne, Ne.symm hne]
    · simp only [mapInsert, if_neg hk, mapLookup]
      by_cases h2 : k0 = k2
      · simp [h2]
      · simp [h2]
        exact mapLookup_mapInsert_ne k k2 v hne rest

/-- The keys of a map, for the uniqueness part of the index invariant. -/
def keysND {κ α : Type} (m : List (κ × α)) : Prop := (m.map Prod.fst).Nodup

theorem keysND_nil {κ α : Type} : keysND ([] : List (κ × α)) := by
  simp [keysND]

theorem mapLookup_eq_none {κ α : Type} [DecidableEq κ] (k : κ) :
    ∀ m : List (κ × α), mapLookup k m = none ↔ k ∉ m.map Prod.fst
  | [] => by simp [mapLookup]
  | (k0, v0) :: rest => by
    by_cases hk : k0 = k
    · subst hk
      simp [mapLookup]
    · simp only [mapLookup, if_neg hk, List.map_cons, List.mem_cons]
      rw [mapLookup_eq_none k rest]
      constructor
      · intro h hmem
        rcases hmem with h1 | h1
        · exact hk h1.symm
        · exact h h1
      · intro h hmem
        exact h (Or.inr hmem)

theorem keys_mapInsert_sub {κ α : Type} [DecidableEq κ] (k : κ) (v : α)
    (m : List (κ × α)) (x : κ) (h : x ∈ (mapInsert k v m).map Prod.fst) :
    x = k ∨ x ∈ m.map Prod.fst := by
  rcases List.mem_map.1 h with ⟨e, he, hx⟩
  rcases mem_mapInsert k v m e he with h2 | h2
  · subst h2
    exact Or.inl hx.symm
  · exact Or.inr (hx ▸ List.mem_map_of_mem Prod.fst h2)

theorem keysND_mapInsert {κ α : Type} [DecidableEq κ] (k : κ) (v : α) :
    ∀ m : List (κ × α), keysND m → keysND (mapInsert k v m)
  | [], _ => by simp [mapInsert, keysND]
  | (k0, v0) :: rest, h => by
    by_cases hk : k0 = k
    · subst hk
      simpa [mapInsert, keysND] using h
    · simp only [keysND, List.map_cons, List.nodup_cons] at h
      obtain ⟨h1, h2⟩ := h
      simp only [mapInsert, if_neg hk, keysND, List.map_cons, List.nodup_cons]
      refine ⟨?_, keysND_mapInsert k v rest h2⟩
      intro hmem
      rcases keys_mapInsert_sub k v rest k0 hmem with h3 | h3
      · exact hk h3
      · exact h1 h3

theorem mapLookup_of_mem_nodup {κ α : Type} [DecidableEq κ] :
    ∀ (m : List (κ × α)) (k : κ) (v : α), keysND m → (k, v) ∈ m → mapLookup k m = some v
  | [], k, v, _, h => by simp at h
  | (k0, v0) :: rest, k, v, hnd, h => by
    simp only [List.mem_cons] at h
    rcases h with h | h
    · cases h
      simp [mapLookup]
    · simp only [keysND, List.map_cons, List.nodup_cons] at hnd
      obtain ⟨h1, h2⟩ := hnd
      by_cases hk : k0 = k
      · subst hk
        exact absurd (List.mem_map_of_mem Prod.fst h) h1
      · simp only [mapLookup, if_neg hk]
        exact mapLookup_of_mem_nodup rest k v h2 h

/-! ## Helper lemmas: bucket index -/

/-- All records of all buckets satisfy P. -/
def bucketAll (P : Pkg → Prop) (m : List (Nat × List Pkg)) : Prop :=
  ∀ e ∈ m, ∀ q ∈ e.2, P q

/-- All buckets hold records whose owner id is the bucket key. -/
def bucketKeyed (m : List (Nat × List Pkg)) : Prop :=
  ∀ e ∈ m, ∀ q ∈ e.2, q.uid = e.1

theorem bucketAll_bucketAppend (P : Pkg → Prop) (u : Nat) (p : Pkg)
    (m : List (Nat × List Pkg)) (hm : bucketAll P m) (hp : P p) :
    bucketAll P (bucketAppend u p m) := by
  intro e he q hq
  unfold bucketAppend at he
  cases hl : mapLookup u m with
  | some l =>
    rw [hl] at he
    rcases mem_mapInsert u (l ++ [p]) m e he with h | h
    · subst h
      rcases List.mem_append.1 hq with h2 | h2
      · exact hm (u, l) (mapLookup_mem u m l hl) q h2
      · simp at h2
        exact h2 ▸ hp
    · exact hm e h q hq
  | none =>
    rw [hl] at he
    rcases mem_mapInsert u [p] m e he with h | h
    · subst h
      simp at hq
      exact hq ▸ hp
    · exact hm e h q hq

theorem bucketKeyed_bucketAppend (u : Nat) (p : Pkg)
    (m : List (Nat × List Pkg)) (hm : bucketKeyed m) (hp : p.uid = u) :
    bucketKeyed (bucketAppend u p m) := by
  intro e he q hq
  unfold bucketAppend at he
  cases hl : mapLookup u m with
  | some l =>
    rw [hl] at he
    rcases mem_mapInsert u (l ++ [p]) m e he with h | h
    · subst h
      rcases List.mem_append.1 hq with h2 | h2
      · exact hm (u, l) (mapLookup_mem u m l hl) q h2
      · simp at h2
        simp [h2, hp]
    · exact hm e h q hq
  | none =>
    rw [hl] at he
    rcases mem_mapInsert u [p] m e he with h | h
    · subst h
      simp at hq
      simp [hq, hp]
    · exact hm e h q hq

theorem bucketAll_buildByUid (P : Pkg → Prop) (entries : List (String × Pkg))
    (h : ∀ kv ∈ entries, P kv.2) : bucketAll P (buildByUid entries) := by
  unfold buildByUid
  apply foldl_inv (bucketAll P)
  · intro e he
    simp at he
  · intro b kv hkv hb
    exact bucketAll_bucketAppend P kv.2.uid kv.2 b hb (h kv hkv)

theorem bucketKeyed_buildByUid (entries : List (String × Pkg)) :
    bucketKeyed (buildByUid entries) := by
  unfold buildByUid
  apply foldl_inv bucketKeyed
  · intro e he
    simp at he
  · intro b kv _ hb
    exact bucketKeyed_bucketAppend kv.2.uid kv.2 b hb rfl

/-! ## Helper lemmas: the merged byName index -/

/-- Every entry of the byName index stores a record under its own name. -/
def namesOwn (m : List (String × Pkg)) : Prop := ∀ e ∈ m, e.2.name = e.1

theorem entriesAll_mapInsert {κ α : Type} [DecidableEq κ] (P : κ × α → Prop)
    (k : κ) (v : α) (m : List (κ × α)) (hm : ∀ e ∈ m, P e) (hv : P (k, v)) :
    ∀ e ∈ mapInsert k v m, P e :=
  fun e he => (mem_mapInsert k v m e he).elim (fun h => h ▸ hv) (hm e)

theorem namesOwn_buildByNameXML (xx : List Pkg) : namesOwn (buildByNameXML xx) := by
  unfold buildByNameXML
  apply foldl_inv namesOwn
  · intro e he
    simp at he
  · intro b p _ hb
    exact entriesAll_mapInsert _ p.name p b hb rfl

theorem namesOwn_mergeLine (m : List (String × Pkg)) (p : Pkg)
    (hm : namesOwn m) : namesOwn (mergeLine m p) := by
  unfold mergeLine
  cases hl : mapLookup p.name m with
  | some a =>
    have ha : a.name = p.name := hm (p.name, a) (mapLookup_mem p.name m a hl)
    exact entriesAll_mapInsert _ p.name (overlay a p) m hm (by simp [overlay, ha])
  | none =>
    exact entriesAll_mapInsert _ p.name p m hm rfl

theorem namesOwn_buildByName (xx ll : List Pkg) : namesOwn (buildByName xx ll) := by
  unfold buildByName
  apply foldl_inv namesOwn
  · exact namesOwn_buildByNameXML xx
  · intro b p _ hb
    exact namesOwn_mergeLine b p hb

theorem keysND_buildByNameXML (xx : List Pkg) : keysND (buildByNameXML xx) := by
  unfold buildByNameXML
  apply foldl_inv keysND
  · exact keysND_nil
  · intro b p _ hb
    exact keysND_mapInsert p.name p b hb

theorem keysND_buildByName (xx ll : List Pkg) : keysND (buildByName xx ll) := by
  unfold buildByName
  apply foldl_inv keysND
  · exact keysND_buildByNameXML xx
  · intro b p _ hb
    unfold mergeLine
    cases hl : mapLookup p.name b with
    | some a => exact keysND_mapInsert p.name (overlay a p) b hb
    | none => exact keysND_mapInsert p.name p b hb

/-! ## Helper lemmas: certificate shape of parsed records -/

/-- Certificate consistency of one record: decoded certificate and
fingerprint are both present or both absent, and the fingerprint is the
fixed twenty-byte digest length when present. -/
def certOk (p : Pkg) : Prop :=
  (p.cert = none ↔ p.certhash = none) ∧ ∀ h, p.certhash = some h → h.length = 20

theorem beBytes_length : ∀ k n : Nat, (beBytes k n).length = k
  | 0, _ => rfl
  | k + 1, n => by simp [beBytes, beBytes_length k]

theorem sha1_length (msg : List Nat) : (sha1 msg).length = 20 := by
  simp [sha1, beBytes_length]

theorem parseXMLone_ok_certOk (f : List Nat → Option Certificate) (x : xpkg)
    (p : Pkg) (h : parseXMLone f x = .ok p) : certOk p := by
  unfold parseXMLone at h
  split at h
  · cases h
  · split at h
    · cases h
      exact ⟨by simp, by simp⟩
    · split at h
      · cases h
      · split at h
        · cases h
          exact ⟨by simp, by simp⟩
        · split at h
          · cases h
          · cases h
            refine ⟨by simp, ?_⟩
            intro hh hhe
            simp at hhe
            rw [← hhe]
            exact sha1_length _

theorem parseXML_ok_certOk (f : List Nat → Option Certificate) :
    ∀ (xd : List xpkg) (xx : List Pkg), parseXML f xd = .ok xx →
      ∀ p ∈ xx, certOk p
  | [], xx, h, p, hp => by
    simp [parseXML] at h
    subst h
    simp at hp
  | x :: rest, xx, h, p, hp => by
    unfold parseXML at h
    split at h
    · cases h
    · split at h
      · cases h
      · cases h
        rcases List.mem_cons.1 hp with h2 | h2
        · subst h2
          exact parseXMLone_ok_certOk f x p (by assumption)
        · exact parseXML_ok_certOk f rest _ (by assumption) p h2

theorem parseLine_ok_nocert (l : List Char) (p : Pkg) (h : parseLine l = .ok p) :
    p.cert = none ∧ p.certhash = none := by
  simp only [parseLine] at h
  split at h
  · cases h
  · split at h
    · cases h
    · split at h
      · cases h
      · split at h
        · cases h
        · split at h
          · cases h
          · split at h
            · cases h
              exact ⟨rfl, rfl⟩
            · cases h

theorem parseListGo_ok_nocert :
    ∀ (ls : List (List Char)) (ll : List Pkg), parseListGo ls = .ok ll →
      ∀ p ∈ ll, p.cert = none ∧ p.certhash = none
  | [], ll, h, p, hp => by
    simp [parseListGo] at h
    subst h
    simp at hp
  | l :: rest, ll, h, p, hp => by
    unfold parseListGo at h
    split at h
    · exact parseListGo_ok_nocert rest ll h p hp
    · cases h
    · cases h
    · split at h
      · cases h
        rcases List.mem_cons.1 hp with h2 | h2
        · subst h2
          exact parseLine_ok_nocert l p (by assumption)
        · exact parseListGo_ok_nocert rest _ (by assumption) p h2
      · rename_i heq
        exact absurd h (heq ll)

/-! ## Refresh-level lemmas -/

theorem refresh_err_of_parseFails (f : List Nat → Option Certificate)
    (iter : List (String × Pkg) → List (String × Pkg)) (self : Option Pkg)
    (now : Nat) (lc : String) (xd : List xpkg) (db : PackageDB)
    (h : parseFails f lc xd) :
    ∃ e, refresh f iter self now lc xd db = .err db e := by
  rcases h with ⟨e, he⟩ | ⟨⟨ll, hll⟩, ⟨e, he⟩⟩
  · refine ⟨e, ?_⟩
    unfold refresh
    rw [he]
  · refine ⟨e, ?_⟩
    unfold refresh
    rw [hll, he]

theorem refresh_ok_inv (f : List Nat → Option Certificate)
    (iter : List (String × Pkg) → List (String × Pkg)) (self : Option Pkg)
    (now : Nat) (lc : String) (xd : List xpkg) (db d : PackageDB)
    (h : refresh f iter self now lc xd db = .ok d) :
    ∃ ll xx, parseList lc = .ok ll ∧ parseXML f xd = .ok xx ∧
      d.lastUpd = now ∧
      ((self = none ∧ d.byName = buildByName xx ll ∧
        d.byUid = buildByUid (iter (buildByName xx ll))) ∨
       (∃ s, self = some s ∧
        d.byName = mapInsert s.name s (buildByName xx ll) ∧
        d.byUid = bucketAppend s.uid s (buildByUid (iter (buildByName xx ll))))) := by
  unfold refresh at h
  split at h
  · cases h
  · cases h
  · rename_i ll hll
    split at h
    · cases h
    · rename_i xx hxx
      refine ⟨ll, xx, hll, hxx, ?_⟩
      cases self with
      | some s =>
        cases h
        exact ⟨rfl, Or.inr ⟨s, rfl, rfl, rfl⟩⟩
      | none =>
        cases h
        exact ⟨rfl, Or.inl ⟨rfl, rfl, rfl⟩⟩

theorem refresh_ok_det (f : List Nat → Option Certificate)
    (iter : List (String × Pkg) → List (String × Pkg)) (self : Option Pkg)
    (now : Nat) (lc : String) (xd : List xpkg) (db1 db2 d1 d2 : PackageDB)
    (h1 : refresh f iter self now lc xd db1 = .ok d1)
    (h2 : refresh f iter self now lc xd db2 = .ok d2) : d1 = d2 := by
  unfold refresh at h1 h2
  split at h1
  · cases h1
  · cases h1
  · rename_i ll hll
    rw [hll] at h2
    split at h1
    · cases h1
    · rename_i xx hxx
      rw [hxx] at h2
      cases self with
      | some s =>
        cases h1
        cases h2
        rfl
      | none =>
        cases h1
        cases h2
        rfl

/-! ## Concrete instances used by witnesses and counterexamples -/

/-- A concrete stand-in for x509.ParseCertificate that rejects nothing;
the inputs it is used on carry no certificate at all. -/
def f0 : List Nat → Option Certificate := fun _ => none

/-- A line manifest whose owner-id field is not numeric. -/
def lcBad : String := "a x 0 /d s none"

/-- A well-formed one-record line manifest. -/
def lcGood : String := "a 5 0 /d lbl 1"

/-- The packages.xml side of the same record, carrying the markup-only
fields and an empty security label. -/
def xpA : xpkg :=
  { name := "a", path := "/p", nativePath := "", pubFlags := 0, uid := 5,
    sharedUid := 0, inst := "", version := "", certstr := "" }

/-- A second markup record sharing the owner id of xpA. -/
def xpB : xpkg :=
  { name := "b", path := "/q", nativePath := "", pubFlags := 0, uid := 5,
    sharedUid := 0, inst := "", version := "", certstr := "" }

/-- A markup record with both owner ids absent. -/
def xpNoUid : xpkg :=
  { name := "a", path := "", nativePath := "", pubFlags := 0, uid := 0,
    sharedUid := 0, inst := "", version := "", certstr := "" }

/-- The record parseXML produces for xpA. -/
def pX : Pkg :=
  { name := "a", dataPath := "", path := "/p", uid := 5, seInfo := "",
    gid := [], cert := none, certhash := none }

/-- The record parseList produces for lcGood. -/
def pLine : Pkg :=
  { name := "a", dataPath := "/d", path := "", uid := 5, seInfo := "lbl",
    gid := [1], cert := none, certhash := none }

/-- A registry state with one published record, for the staleness
scenarios. -/
def dbPre : PackageDB :=
  { lastUpd := 10, byName := [("a", pX)], byUid := [(5, [pX])] }

/-! ## C1 -/

/-- C1: if a refresh attempt fails with a parse error in either the line
manifest or the markup manifest, the registry state after the failed
attempt is unchanged: lookups by name and by owner id return the same
results as before the attempt and the last-update timestamp is the
same. -/
theorem C1_refresh_fail_closed (f : List Nat → Option Certificate)
    (iter : List (String × Pkg) → List (String × Pkg)) (self : Option Pkg)
    (now : Nat) (lc : String) (xd : List xpkg) (db : PackageDB)
    (h : parseFails f lc xd) :
    ∃ e, refresh f iter self now lc xd db = .err db e ∧
      (∀ nm, getByNamePure (afterRefresh db (refresh f iter self now lc xd db)) nm =
        getByNamePure db nm) ∧
      (∀ u, getListByUidPure (afterRefresh db (refresh f iter self now lc xd db)) u =
        getListByUidPure db u) ∧
      LastUpdate (afterRefresh db (refresh f iter self now lc xd db)) = LastUpdate db := by
  obtain ⟨e, he⟩ := refresh_err_of_parseFails f iter self now lc xd db h
  refine ⟨e, he, ?_, ?_, ?_⟩ <;> rw [he] <;> simp [afterRefresh]

/-- Witness for C1 at a concrete failing line manifest. -/
theorem C1_refresh_fail_closed_witness :
    parseFails f0 lcBad [] ∧
    ∃ e, refresh f0 id none 3 lcBad [] emptyDB = .err emptyDB e ∧
      (∀ nm, getByNamePure (afterRefresh emptyDB (refresh f0 id none 3 lcBad [] emptyDB)) nm =
        getByNamePure emptyDB nm) ∧
      (∀ u, getListByUidPure (afterRefresh emptyDB (refresh f0 id none 3 lcBad [] emptyDB)) u =
        getListByUidPure emptyDB u) ∧
      LastUpdate (afterRefresh emptyDB (refresh f0 id none 3 lcBad [] emptyDB)) =
        LastUpdate emptyDB := by
  have hpf : parseFails f0 lcBad [] := Or.inl ⟨.badUid "x" "a", by decide⟩
  exact ⟨hpf, C1_refresh_fail_closed f0 id none 3 lcBad [] emptyDB hpf⟩

/-! ## C3 -/

/-- C3: the owner id resolved for a markup package element is userId
when it is positive, otherwise sharedUserId when that is positive; and
when both are zero, parsing fails with a ParseError naming the
package. -/
theorem C3_owner_id_resolution (f : List Nat → Option Certificate) (x : xpkg) :
    (∀ p, parseXMLone f x = .ok p →
      p.uid = if 0 < x.uid then x.uid else x.sharedUid) ∧
    (0 < x.uid → resolveUid x = .ok x.uid) ∧
    (¬ 0 < x.uid → 0 < x.sharedUid → resolveUid x = .ok x.sharedUid) ∧
    (x.uid = 0 → x.sharedUid = 0 → parseXMLone f x = .error (.noUid x.name)) := by
  refine ⟨?_, ?_, ?_, ?_⟩
  · intro p hp
    unfold parseXMLone at hp
    split at hp
    · cases hp
    · rename_i u hu0
      have hu : u = if 0 < x.uid then x.uid else x.sharedUid := by
        unfold resolveUid at hu0
        split at hu0
        · cases hu0
          rename_i h
          simp [h]
        · split at hu0
          · cases hu0
            rename_i h1 h2
            simp [h1]
          · cases hu0
      split at hp
      · cases hp
        exact hu
      · split at hp
        · cases hp
        · rename_i b hb
          split at hp
          · cases hp
            exact hu
          · split at hp
            · cases hp
            · cases hp
              exact hu
  · intro h
    unfold resolveUid
    simp [h]
  · intro h1 h2
    unfold resolveUid
    simp [h1, h2]
  · intro h1 h2
    unfold parseXMLone resolveUid
    simp [h1, h2]

/-- Witness for C3 at a markup element with both owner ids zero. -/
theorem C3_owner_id_resolution_witness :
    xpNoUid.uid = 0 ∧ xpNoUid.sharedUid = 0 ∧
    parseXMLone f0 xpNoUid = .error (.noUid "a") :=
  ⟨rfl, rfl, (C3_owner_id_resolution f0 xpNoUid).2.2.2 rfl rfl⟩

/-! ## C2 -/

/-- C2 counterexample: the merge does not copy the security label from
the line-manifest record; at this input the line record carries label
lbl, yet the merged record keeps the empty markup-side label, so the
claim that securityLabel is taken from the line-manifest record fails. -/
theorem C2_counterexample :
    parseList lcGood = .ok [pLine] ∧ pLine.seInfo = "lbl" ∧
    (getByNamePure (afterRefresh emptyDB (refresh f0 id none 9 lcGood [xpA] emptyDB)) "a").map
      Pkg.seInfo = some "" ∧
    (getByNamePure (afterRefresh emptyDB (refresh f0 id none 9 lcGood [xpA] emptyDB)) "a").map
      Pkg.seInfo ≠ some "lbl" := by
  refine ⟨by decide, rfl, by decide, by decide⟩

/-- C2 amended: when a line-manifest record matches a markup record by
name, the merged record takes dataPath and groupIds from the line
record, while securityLabel and every markup-only field (installPath,
ownerId, certificate, fingerprint, name) keep the markup-side value. -/
theorem C2_overlay_fields (m : List (String × Pkg)) (p a : Pkg)
    (h : mapLookup p.name m = some a) :
    mapLookup p.name (mergeLine m p) = some (overlay a p) ∧
    (overlay a p).dataPath = p.dataPath ∧ (overlay a p).gid = p.gid ∧
    (overlay a p).seInfo = a.seInfo ∧ (overlay a p).path = a.path ∧
    (overlay a p).uid = a.uid ∧ (overlay a p).cert = a.cert ∧
    (overlay a p).certhash = a.certhash ∧ (overlay a p).name = a.name := by
  refine ⟨?_, rfl, rfl, rfl, rfl, rfl, rfl, rfl, rfl⟩
  unfold mergeLine
  rw [h]
  exact mapLookup_mapInsert_self p.name (overlay a p) m

/-- Witness for the amended C2 at the concrete merged record. -/
theorem C2_overlay_fields_witness :
    mapLookup pLine.name [("a", pX)] = some pX ∧
    (mapLookup pLine.name (mergeLine [("a", pX)] pLine) = some (overlay pX pLine) ∧
     (overlay pX pLine).dataPath = pLine.dataPath ∧ (overlay pX pLine).gid = pLine.gid ∧
     (overlay pX pLine).seInfo = pX.seInfo ∧ (overlay pX pLine).path = pX.path ∧
     (overlay pX pLine).uid = pX.uid ∧ (overlay pX pLine).cert = pX.cert ∧
     (overlay pX pLine).certhash = pX.certhash ∧ (overlay pX pLine).name = pX.name) :=
  ⟨by decide, C2_overlay_fields [("a", pX)] pLine pX (by decide)⟩

/-! ## C4 -/

/-- Upper-casing of the hex alphabet, for the case-independence part of
the certificate round trip. -/
def hexUpper (c : Char) : Char :=
  if c = 'a' then 'A' else if c = 'b' then 'B' else if c = 'c' then 'C'
  else if c = 'd' then 'D' else if c = 'e' then 'E' else if c = 'f' then 'F' else c

theorem hexVal_hexUpper (c : Char) : hexVal (hexUpper c) = hexVal c := by
  unfold hexUpper
  split
  · rename_i h
    subst h
    decide
  · split
    · rename_i h
      subst h
      decide
    · split
      · rename_i h
        subst h
        decide
      · split
        · rename_i h
          subst h
          decide
        · split
          · rename_i h
            subst h
            decide
          · split
            · rename_i h
              subst h
              decide
            · rfl

theorem hexDecode_hexUpper : ∀ cs : List Char,
    hexDecode (cs.map hexUpper) = hexDecode cs
  | [] => rfl
  | [c] => by simp [hexDecode]
  | c1 :: c2 :: rest => by
    simp only [List.map_cons, hexDecode, hexVal_hexUpper, hexDecode_hexUpper rest]

/-- C4: a markup package element whose non-empty hex certificate string
decodes to non-empty bytes accepted by the certificate decoder yields a
record whose fingerprint is the twenty-byte SHA-1 digest of the raw
decoded bytes, and the element with the hex string upper-cased parses to
the very same record. -/
theorem C4_cert_fingerprint (f : List Nat → Option Certificate) (x : xpkg)
    (b : List Nat) (crt : Certificate)
    (hresolve : 0 < x.uid ∨ 0 < x.sharedUid)
    (hs : x.certstr.data ≠ [])
    (hb : hexDecode x.certstr.data = some b)
    (hbn : b ≠ [])
    (hc : f b = some crt) :
    (∃ p, parseXMLone f x = .ok p ∧ p.cert = some crt ∧
      p.certhash = some (sha1 b) ∧ (sha1 b).length = 20) ∧
    parseXMLone f { x with certstr := String.mk (x.certstr.data.map hexUpper) } =
      parseXMLone f x := by
  have hu : ∃ u, resolveUid x = .ok u := by
    unfold resolveUid
    by_cases h1 : 0 < x.uid
    · exact ⟨x.uid, by simp [h1]⟩
    · rcases hresolve with h | h
      · exact absurd h h1
      · exact ⟨x.sharedUid, by simp [h1, h]⟩
  obtain ⟨u, hu⟩ := hu
  have hx1 : parseXMLone f x =
      .ok { name := x.name, path := x.path, uid := u, dataPath := "",
            seInfo := "", gid := [], cert := some crt, certhash := some (sha1 b) } := by
    unfold parseXMLone
    rw [hu]
    simp [hs, hb, hbn, hc]
  constructor
  · exact ⟨_, hx1, rfl, rfl, sha1_length b⟩
  · have hres2 : resolveUid { x with certstr := String.mk (x.certstr.data.map hexUpper) } =
        resolveUid x := rfl
    have hdata : ({ x with certstr := String.mk (x.certstr.data.map hexUpper) } : xpkg).certstr.data =
        x.certstr.data.map hexUpper := rfl
    have hs2 : x.certstr.data.map hexUpper ≠ [] := by
      simpa using hs
    have hb2 : hexDecode (x.certstr.data.map hexUpper) = some b :=
      (hexDecode_hexUpper x.certstr.data).trans hb
    rw [hx1]
    unfold parseXMLone
    rw [hres2, hu, hdata]
    simp [hs2, hb2, hbn, hc]

/-- Witness for C4 at a concrete two-byte certificate; the stand-in
certificate decoder wraps the raw bytes. -/
theorem C4_cert_fingerprint_witness :
    (0 < (5 : Nat) ∨ 0 < (0 : Nat)) ∧
    ({ xpA with certstr := "abcd" } : xpkg).certstr.data ≠ [] ∧
    hexDecode ({ xpA with certstr := "abcd" } : xpkg).certstr.data = some [171, 205] ∧
    ([171, 205] : List Nat) ≠ [] ∧
    (fun bs => some (Certificate.mk bs)) [171, 205] = some (Certificate.mk [171, 205]) ∧
    ((∃ p, parseXMLone (fun bs => some (Certificate.mk bs)) { xpA with certstr := "abcd" } = .ok p ∧
        p.cert = some (Certificate.mk [171, 205]) ∧
        p.certhash = some (sha1 [171, 205]) ∧ (sha1 [171, 205]).length = 20) ∧
      parseXMLone (fun bs => some (Certificate.mk bs))
          { { xpA with certstr := "abcd" } with
            certstr := String.mk (({ xpA with certstr := "abcd" } : xpkg).certstr.data.map hexUpper) } =
        parseXMLone (fun bs => some (Certificate.mk bs)) { xpA with certstr := "abcd" }) := by
  refine ⟨Or.inl (by decide), by decide, by decide, by decide, rfl, ?_⟩
  exact C4_cert_fingerprint (fun bs => some (Certificate.mk bs))
    { xpA with certstr := "abcd" } [171, 205] (Certificate.mk [171, 205])
    (Or.inl (by decide)) (by decide) (by decide) (by decide) rfl

/-! ## C5 -/

theorem certOk_overlay (a p : Pkg) (h : certOk a) : certOk (overlay a p) :=
  ⟨h.1, h.2⟩

theorem certOk_buildByName (xx ll : List Pkg)
    (hx : ∀ p ∈ xx, certOk p) (hl : ∀ p ∈ ll, certOk p) :
    ∀ e ∈ buildByName xx ll, certOk e.2 := by
  unfold buildByName
  refine foldl_inv (fun m : List (String × Pkg) => ∀ e ∈ m, certOk e.2) mergeLine ll (buildByNameXML xx) ?_ ?_
  · unfold buildByNameXML
    refine foldl_inv (fun m : List (String × Pkg) => ∀ e ∈ m, certOk e.2) _ xx [] ?_ ?_
    · intro e he
      simp at he
    · intro b p hp hb
      exact entriesAll_mapInsert _ p.name p b hb (hx p hp)
  · intro b p hp hb
    unfold mergeLine
    cases hla : mapLookup p.name b with
    | some a =>
      have hca : certOk a := hb (p.name, a) (mapLookup_mem _ b a hla)
      exact entriesAll_mapInsert _ p.name (overlay a p) b hb (certOk_overlay a p hca)
    | none =>
      exact entriesAll_mapInsert _ p.name p b hb (hl p hp)

/-- C5: in every snapshot published by a successful refresh, every
record of both indices has certificate and fingerprint both present or
both absent, and a present fingerprint is exactly twenty bytes long.
The iteration function ranges over map iteration orders (it returns
entries of its input) and self over what getself can produce. -/
theorem C5_cert_invariant (f : List Nat → Option Certificate)
    (iter : List (String × Pkg) → List (String × Pkg)) (self : Option Pkg)
    (now : Nat) (lc : String) (xd : List xpkg) (db d : PackageDB)
    (hiter : ∀ (l : List (String × Pkg)) (e : String × Pkg), e ∈ iter l → e ∈ l)
    (hself : getselfRange self)
    (hok : refresh f iter self now lc xd db = .ok d) :
    (∀ e ∈ d.byName, certOk e.2) ∧ (∀ e ∈ d.byUid, ∀ p ∈ e.2, certOk p) := by
  obtain ⟨ll, xx, hll, hxx, hlu, hcase⟩ := refresh_ok_inv f iter self now lc xd db d hok
  have hxm : ∀ p ∈ xx, certOk p := parseXML_ok_certOk f xd xx hxx
  have hlm : ∀ p ∈ ll, certOk p := by
    intro p hp
    obtain ⟨h1, h2⟩ := parseListGo_ok_nocert (goLines lc.data) ll hll p hp
    exact ⟨by simp [h1, h2], by simp [h2]⟩
  have hByName : ∀ e ∈ buildByName xx ll, certOk e.2 := certOk_buildByName xx ll hxm hlm
  have hBuck : bucketAll certOk (buildByUid (iter (buildByName xx ll))) :=
    bucketAll_buildByUid certOk _ (fun kv hkv => hByName kv (hiter _ kv hkv))
  rcases hcase with ⟨hsn, hbn, hbu⟩ | ⟨s, hs, hbn, hbu⟩
  · constructor
    · rw [hbn]
      exact hByName
    · rw [hbu]
      exact hBuck
  · have hcs : certOk s := by
      rcases hself with h | ⟨u2, h⟩
      · rw [h] at hs
        cases hs
      · rw [h] at hs
        cases hs
        exact ⟨by simp [getselfModel], by simp [getselfModel]⟩
    constructor
    · rw [hbn]
      exact entriesAll_mapInsert _ s.name s _ hByName hcs
    · rw [hbu]
      exact bucketAll_bucketAppend certOk s.uid s _ hBuck hcs

/-- Witness for C5 at a concrete successful rebuild. -/
theorem C5_cert_invariant_witness :
    refresh f0 id none 9 lcGood [xpA] emptyDB =
      .ok (afterRefresh emptyDB (refresh f0 id none 9 lcGood [xpA] emptyDB)) ∧
    ((∀ e ∈ (afterRefresh emptyDB (refresh f0 id none 9 lcGood [xpA] emptyDB)).byName, certOk e.2) ∧
     (∀ e ∈ (afterRefresh emptyDB (refresh f0 id none 9 lcGood [xpA] emptyDB)).byUid,
        ∀ p ∈ e.2, certOk p)) := by
  refine ⟨by decide, ?_⟩
  exact C5_cert_invariant f0 id none 9 lcGood [xpA] emptyDB
    (afterRefresh emptyDB (refresh f0 id none 9 lcGood [xpA] emptyDB))
    (fun l e h => h) (Or.inl rfl) (by decide)

/-! ## C6 -/

theorem parseGids_of_mapM (nm : String) : ∀ (segs : List (List Char)) (gv : List Nat),
    segs.mapM parseUint0_32 = some gv → parseGids nm segs = .ok gv
  | [], gv, h => by
    have h2 : (some ([] : List Nat) : Option (List Nat)) = some gv := h
    cases h2
    rfl
  | g :: rest, gv, h => by
    rw [List.mapM_cons] at h
    cases hg : parseUint0_32 g with
    | none =>
      rw [hg] at h
      simp at h
    | some n =>
      rw [hg] at h
      cases hrest : rest.mapM parseUint0_32 with
      | none =>
        rw [hrest] at h
        simp at h
      | some l2 =>
        rw [hrest] at h
        simp at h
        subst h
        simp [parseGids, hg, parseGids_of_mapM nm rest l2 hrest]

/-- C6: a well-formed line-manifest record yields an empty group-id
sequence when the group-id field is the literal sentinel none, and
exactly the listed numeric group ids in written order when the field is
a comma-separated list. -/
theorem C6_gid_parsing (l v0 u1 d dp se gs : List Char) (uv : Nat)
    (hf : goFields l = [v0, u1, d, dp, se, gs])
    (hu : parseUint0_32 u1 = some uv) :
    (gs = "none".data →
      parseLine l = .ok { name := String.mk v0, uid := uv, dataPath := String.mk dp,
                          path := "", seInfo := String.mk se, gid := [],
                          cert := none, certhash := none }) ∧
    (∀ gv, gs ≠ "none".data → (goSplit ',' gs).mapM parseUint0_32 = some gv →
      parseLine l = .ok { name := String.mk v0, uid := uv, dataPath := String.mk dp,
                          path := "", seInfo := String.mk se, gid := gv,
                          cert := none, certhash := none }) := by
  constructor
  · intro hgs
    simp only [parseLine, hf]
    simp [hu, hgs]
  · intro gv hne hgv
    simp only [parseLine, hf]
    simp [hu, hne, parseGids_of_mapM (String.mk v0) (goSplit ',' gs) gv hgv]

/-- Witness for C6 at the sentinel and at the list 1,2,3. -/
theorem C6_gid_parsing_witness :
    (goFields "a 1 0 /d s none".data =
      ["a".data, "1".data, "0".data, "/d".data, "s".data, "none".data] ∧
     parseUint0_32 "1".data = some 1 ∧
     parseLine "a 1 0 /d s none".data = .ok { name := "a", uid := 1, dataPath := "/d",
                                              path := "", seInfo := "s", gid := [],
                                              cert := none, certhash := none }) ∧
    (goFields "a 1 0 /d s 1,2,3".data =
      ["a".data, "1".data, "0".data, "/d".data, "s".data, "1,2,3".data] ∧
     (goSplit ',' "1,2,3".data).mapM parseUint0_32 = some [1, 2, 3] ∧
     parseLine "a 1 0 /d s 1,2,3".data = .ok { name := "a", uid := 1, dataPath := "/d",
                                               path := "", seInfo := "s", gid := [1, 2, 3],
                                               cert := none, certhash := none }) := by
  refine ⟨⟨by decide, by decide, ?_⟩, ⟨by decide, by decide, ?_⟩⟩
  · exact (C6_gid_parsing "a 1 0 /d s none".data "a".data "1".data "0".data "/d".data
      "s".data "none".data 1 (by decide) (by decide)).1 rfl
  · exact (C6_gid_parsing "a 1 0 /d s 1,2,3".data "a".data "1".data "0".data "/d".data
      "s".data "1,2,3".data 1 (by decide) (by decide)).2 [1, 2, 3] (by decide) (by decide)

/-! ## C7 -/

/-- A markup package whose name collides with the synthetic self entry
for owner id seven. -/
def xpC7 : xpkg :=
  { name := "caller-uid-7", path := "/p", nativePath := "", pubFlags := 0,
    uid := 7, sharedUid := 0, inst := "", version := "", certstr := "" }

/-- The record parseXML produces for xpC7. -/
def pC7 : Pkg :=
  { name := "caller-uid-7", dataPath := "", path := "/p", uid := 7,
    seInfo := "", gid := [], cert := none, certhash := none }

/-- C7 counterexample: when the injected self entry carries a name that
an existing package already uses, the existing record stays in the
byUid bucket while its byName entry is overwritten by the self record,
so a byUid record is not the value of any byName entry. -/
theorem C7_counterexample :
    refresh f0 id (some (getselfModel 7)) 9 "" [xpC7] emptyDB =
      .ok (afterRefresh emptyDB (refresh f0 id (some (getselfModel 7)) 9 "" [xpC7] emptyDB)) ∧
    getListByUidPure
      (afterRefresh emptyDB (refresh f0 id (some (getselfModel 7)) 9 "" [xpC7] emptyDB)) 7 =
      some [pC7, getselfModel 7] ∧
    pC7 ∈ [pC7, getselfModel 7] ∧
    getByNamePure
      (afterRefresh emptyDB (refresh f0 id (some (getselfModel 7)) 9 "" [xpC7] emptyDB))
      pC7.name ≠ some pC7 := by
  refine ⟨by decide, by decide, by decide, by decide⟩

/-- C7 amended: in every published snapshot, every record of a byUid
bucket is the value of exactly one byName entry under its own name
(byName keys are unique), provided the synthetic self record, when one
is injected, has a name not already present among the merged records;
the counterexample shows the colliding case genuinely fails. -/
theorem C7_byUid_reachable (f : List Nat → Option Certificate)
    (iter : List (String × Pkg) → List (String × Pkg)) (self : Option Pkg)
    (now : Nat) (lc : String) (xd : List xpkg) (db d : PackageDB)
    (hiter : ∀ (l : List (String × Pkg)) (e : String × Pkg), e ∈ iter l → e ∈ l)
    (hok : refresh f iter self now lc xd db = .ok d)
    (hself : ∀ s, self = some s → ∀ ll xx, parseList lc = .ok ll →
      parseXML f xd = .ok xx → mapLookup s.name (buildByName xx ll) = none) :
    keysND d.byName ∧
    ∀ u l p, getListByUidPure d u = some l → p ∈ l → getByNamePure d p.name = some p := by
  obtain ⟨ll, xx, hll, hxx, hlu, hcase⟩ := refresh_ok_inv f iter self now lc xd db d hok
  have hnd : keysND (buildByName xx ll) := keysND_buildByName xx ll
  have hown : namesOwn (buildByName xx ll) := namesOwn_buildByName xx ll
  have hmem : ∀ kv ∈ buildByName xx ll,
      mapLookup kv.2.name (buildByName xx ll) = some kv.2 := by
    intro kv hkv
    have h1 : kv.2.name = kv.1 := hown kv hkv
    rw [h1]
    exact mapLookup_of_mem_nodup _ kv.1 kv.2 hnd (by cases kv with | mk a b => exact hkv)
  rcases hcase with ⟨hsn, hbn, hbu⟩ | ⟨s, hs, hbn, hbu⟩
  · constructor
    · rw [hbn]
      exact hnd
    · intro u l p hl hp
      have hball : bucketAll (fun q => mapLookup q.name (buildByName xx ll) = some q)
          (buildByUid (iter (buildByName xx ll))) :=
        bucketAll_buildByUid _ _ (fun kv hkv => hmem kv (hiter _ kv hkv))
      unfold getListByUidPure at hl
      rw [hbu] at hl
      have h2 := hball (u, l) (mapLookup_mem u _ l hl) p hp
      unfold getByNamePure
      rw [hbn]
      exact h2
  · have hnone : mapLookup s.name (buildByName xx ll) = none := hself s hs ll xx hll hxx
    constructor
    · rw [hbn]
      exact keysND_mapInsert s.name s _ hnd
    · intro u l p hl hp
      have hball : bucketAll
          (fun q => mapLookup q.name (mapInsert s.name s (buildByName xx ll)) = some q)
          (bucketAppend s.uid s (buildByUid (iter (buildByName xx ll)))) := by
        apply bucketAll_bucketAppend
        · apply bucketAll_buildByUid
          intro kv hkv
          have h1 := hmem kv (hiter _ kv hkv)
          have hne : kv.2.name ≠ s.name := by
            intro heq
            rw [heq, hnone] at h1
            cases h1
          rw [mapLookup_mapInsert_ne s.name kv.2.name s hne]
          exact h1
        · exact mapLookup_mapInsert_self s.name s _
      unfold getListByUidPure at hl
      rw [hbu] at hl
      have h2 := hball (u, l) (mapLookup_mem u _ l hl) p hp
      unfold getByNamePure
      rw [hbn]
      exact h2

/-- Witness for the amended C7 at a concrete rebuild without a self
entry. -/
theorem C7_byUid_reachable_witness :
    refresh f0 id none 9 lcGood [xpA] emptyDB =
      .ok (afterRefresh emptyDB (refresh f0 id none 9 lcGood [xpA] emptyDB)) ∧
    (keysND (afterRefresh emptyDB (refresh f0 id none 9 lcGood [xpA] emptyDB)).byName ∧
     ∀ u l p, getListByUidPure (afterRefresh emptyDB (refresh f0 id none 9 lcGood [xpA] emptyDB)) u = some l →
       p ∈ l →
       getByNamePure (afterRefresh emptyDB (refresh f0 id none 9 lcGood [xpA] emptyDB)) p.name = some p) := by
  refine ⟨by decide, ?_⟩
  exact C7_byUid_reachable f0 id none 9 lcGood [xpA] emptyDB
    (afterRefresh emptyDB (refresh f0 id none 9 lcGood [xpA] emptyDB))
    (fun l e h => h) (by decide) (fun s hs => Option.noConfusion hs)

/-! ## C10 -/

/-- C10: the line-manifest reader is total only when every non-blank
line splits into at least six fields: a concrete two-field line drives
the guarded embedding into its out-of-range branch (the unguarded
original would abort), while any line with at least six fields never
reaches that branch. -/
theorem C10_short_line_partiality :
    parseList "a 5" = .panic ∧
    ∀ l : List Char, 6 ≤ (goFields l).length → parseLine l ≠ .panic := by
  constructor
  · decide
  · intro l h6 hp
    simp only [parseLine] at hp
    obtain ⟨a, b, c, d0, e0, g0, rest, hgf⟩ :
        ∃ a b c d0 e0 g0 rest, goFields l = a :: b :: c :: d0 :: e0 :: g0 :: rest := by
      cases l0 : goFields l with
      | nil => rw [l0] at h6; simp at h6
      | cons a t1 =>
      cases t1 with
      | nil => rw [l0] at h6; simp at h6
      | cons b t2 =>
      cases t2 with
      | nil => rw [l0] at h6; simp at h6
      | cons c t3 =>
      cases t3 with
      | nil => rw [l0] at h6; simp at h6
      | cons d0 t4 =>
      cases t4 with
      | nil => rw [l0] at h6; simp at h6
      | cons e0 t5 =>
      cases t5 with
      | nil => rw [l0] at h6; simp at h6
      | cons g0 rest => exact ⟨a, b, c, d0, e0, g0, rest, rfl⟩
    rw [hgf] at hp
    simp only [List.get?_cons_succ, List.get?_cons_zero] at hp
    split at hp
    · cases hp
    · split at hp
      · cases hp
      · cases hp

/-! ## C8 -/

/-- C8 counterexample: a staleness-triggered refresh that fails with a
parse error is not surfaced to the caller of the lookup: the lookup
returns exactly what it returns when no refresh was needed at all, so
the two situations are indistinguishable to the caller and no error
reaches it.  Only the initial open surfaces the error. -/
theorem C8_counterexample :
    (∃ e, refresh f0 id none 99 lcBad [] dbPre = .err dbPre e) ∧
    GetByName f0 id none 99 (some 20) (some 20) lcBad [] dbPre "a" =
      GetByName f0 id none 99 (some 5) (some 5) lcBad [] dbPre "a" ∧
    GetByName f0 id none 99 (some 20) (some 20) lcBad [] dbPre "a" =
      .ok (some pX, dbPre) := by
  exact ⟨⟨.badUid "x" "a", by decide⟩, by decide, by decide⟩

/-- C8 amended: when parsing either manifest fails, the initial open
returns the error to its caller, while a staleness-triggered refresh
during a lookup discards the error and silently serves the prior
snapshot; in both cases the registry state is left uncorrupted (the
open hands back the untouched empty state, the lookup path the
untouched previous state). -/
theorem C8_error_surfacing (f : List Nat → Option Certificate)
    (iter : List (String × Pkg) → List (String × Pkg)) (self : Option Pkg)
    (now : Nat) (lc : String) (xd : List xpkg)
    (h : parseFails f lc xd) (mt0 mt1 : Nat) (db : PackageDB)
    (hstale : db.lastUpd < mt0 ∨ db.lastUpd < mt1) :
    (∃ e, OpenPackageDB f iter self now lc xd = .ok (emptyDB, some e)) ∧
    maybeRefresh f iter self now (some mt0) (some mt1) lc xd db = .ok db := by
  obtain ⟨e1, he1⟩ := refresh_err_of_parseFails f iter self now lc xd emptyDB h
  obtain ⟨e2, he2⟩ := refresh_err_of_parseFails f iter self now lc xd db h
  constructor
  · refine ⟨e1, ?_⟩
    unfold OpenPackageDB
    rw [he1]
  · simp only [maybeRefresh]
    rw [if_pos hstale, he2]

/-- Witness for the amended C8 at concrete stale timestamps. -/
theorem C8_error_surfacing_witness :
    parseFails f0 lcBad [] ∧ (dbPre.lastUpd < 20 ∨ dbPre.lastUpd < 20) ∧
    ((∃ e, OpenPackageDB f0 id none 99 lcBad [] = .ok (emptyDB, some e)) ∧
     maybeRefresh f0 id none 99 (some 20) (some 20) lcBad [] dbPre = .ok dbPre) := by
  have hpf : parseFails f0 lcBad [] := Or.inl ⟨.badUid "x" "a", by decide⟩
  have hst : dbPre.lastUpd < 20 ∨ dbPre.lastUpd < 20 := Or.inl (by decide)
  exact ⟨hpf, hst, C8_error_surfacing f0 id none 99 lcBad [] hpf 20 20 dbPre hst⟩

/-! ## C9 -/

/-- C9 counterexample: reversing the byName entries is a legitimate map
iteration order (a permutation of the entries), yet rebuilding from the
very same manifest contents under the two orders makes the first-match
owner-id lookup return different records, so the result is not
deterministic across snapshots built from identical contents. -/
theorem C9_counterexample :
    (∀ l : List (String × Pkg), l.reverse.Perm l) ∧
    refresh f0 id none 9 "" [xpA, xpB] emptyDB =
      .ok (afterRefresh emptyDB (refresh f0 id none 9 "" [xpA, xpB] emptyDB)) ∧
    refresh f0 List.reverse none 9 "" [xpA, xpB] emptyDB =
      .ok (afterRefresh emptyDB (refresh f0 List.reverse none 9 "" [xpA, xpB] emptyDB)) ∧
    getByUidPure (afterRefresh emptyDB (refresh f0 id none 9 "" [xpA, xpB] emptyDB)) 5 ≠
      getByUidPure (afterRefresh emptyDB (refresh f0 List.reverse none 9 "" [xpA, xpB] emptyDB)) 5 := by
  refine ⟨fun l => l.reverse_perm, by decide, by decide, by decide⟩

/-- C9 amended: the first-match owner-id lookup returns a record of that
owner id bucket (so some representative of the processes sharing the
id), and it is deterministic given the manifest contents together with
the map iteration order: the snapshot of a successful rebuild does not
depend on the prior registry state. -/
theorem C9_first_by_uid (f : List Nat → Option Certificate)
    (iter : List (String × Pkg) → List (String × Pkg)) (self : Option Pkg)
    (now : Nat) (lc : String) (xd : List xpkg) (db1 db2 d1 d2 : PackageDB)
    (h1 : refresh f iter self now lc xd db1 = .ok d1)
    (h2 : refresh f iter self now lc xd db2 = .ok d2) :
    (∀ u, getByUidPure d1 u = getByUidPure d2 u) ∧
    (∀ u p, getByUidPure d1 u = some p →
      p.uid = u ∧ ∃ l, getListByUidPure d1 u = some l ∧ p ∈ l) := by
  have hd : d1 = d2 := refresh_ok_det f iter self now lc xd db1 db2 d1 d2 h1 h2
  subst hd
  refine ⟨fun u => rfl, ?_⟩
  obtain ⟨ll, xx, hll, hxx, hlu, hcase⟩ := refresh_ok_inv f iter self now lc xd db1 d1 h1
  have hbk : bucketKeyed d1.byUid := by
    rcases hcase with ⟨hsn, hbn, hbu⟩ | ⟨s, hs, hbn, hbu⟩
    · rw [hbu]
      exact bucketKeyed_buildByUid _
    · rw [hbu]
      exact bucketKeyed_bucketAppend s.uid s _ (bucketKeyed_buildByUid _) rfl
  intro u p hp
  unfold getByUidPure at hp
  cases hm : mapLookup u d1.byUid with
  | none =>
    rw [hm] at hp
    cases hp
  | some l =>
    rw [hm] at hp
    have hpl : p ∈ l := by
      cases l with
      | nil => cases hp
      | cons a t =>
        simp at hp
        simp [hp]
    refine ⟨hbk (u, l) (mapLookup_mem u _ l hm) p hpl, l, ?_, hpl⟩
    unfold getListByUidPure
    rw [hm]

/-- Witness for the amended C9: two rebuilds from the same contents and
order, out of different prior states. -/
theorem C9_first_by_uid_witness :
    refresh f0 id none 9 "" [xpA, xpB] emptyDB =
      .ok (afterRefresh emptyDB (refresh f0 id none 9 "" [xpA, xpB] emptyDB)) ∧
    refresh f0 id none 9 "" [xpA, xpB] dbPre =
      .ok (afterRefresh dbPre (refresh f0 id none 9 "" [xpA, xpB] dbPre)) ∧
    ((∀ u, getByUidPure (afterRefresh emptyDB (refresh f0 id none 9 "" [xpA, xpB] emptyDB)) u =
        getByUidPure (afterRefresh dbPre (refresh f0 id none 9 "" [xpA, xpB] dbPre)) u) ∧
     (∀ u p, getByUidPure (afterRefresh emptyDB (refresh f0 id none 9 "" [xpA, xpB] emptyDB)) u = some p →
       p.uid = u ∧
       ∃ l, getListByUidPure (afterRefresh emptyDB (refresh f0 id none 9 "" [xpA, xpB] emptyDB)) u = some l ∧
         p ∈ l)) := by
  refine ⟨by decide, by decide, ?_⟩
  exact C9_first_by_uid f0 id none 9 "" [xpA, xpB] emptyDB dbPre
    (afterRefresh emptyDB (refresh f0 id none 9 "" [xpA, xpB] emptyDB))
    (afterRefresh dbPre (refresh f0 id none 9 "" [xpA, xpB] dbPre))
    (by decide) (by decide)
